import Mathlib

/-!
# Verification of the `inventory-uploader` reverse-proxy relay

Shallow embedding of `proxy-server.js`: the Express handler mounted at
`/api` that acquires a gcloud identity token, rewrites the inbound request
(path, headers, body-encoding strategy) and translates the backend response
back to the client.  JavaScript's `JSON.parse` / `JSON.stringify` are
modelled by an executable serializer and a fuel-based recursive-descent
parser over an integer-numeral JSON fragment, with a proved
parse-of-stringify round trip.
-/

set_option maxHeartbeats 1000000

/-- JSON values, restricted to integer numerals: the fragment of the
JavaScript data model that the relay's `JSON.stringify(req.body)` and
`express.json()` exchange (floating-point numerals are outside the model;
the parser fails on them rather than approximating). -/
inductive Json where
  | null : Json
  | bool : Bool → Json
  | num : Int → Json
  | str : String → Json
  | arr : List Json → Json
  | obj : List (String × Json) → Json
deriving Repr

/-- Decimal digit characters of `n`, most significant first, by fuel-driven
division (`fuel ≥ n` suffices); kernel-reducible. -/
def natToCharsAux : Nat → Nat → List Char
  | 0, _ => []
  | _ + 1, 0 => []
  | fuel + 1, n + 1 =>
    natToCharsAux fuel ((n + 1) / 10) ++ [Nat.digitChar ((n + 1) % 10)]

/-- Decimal representation of a natural number, as `String(n)` prints it. -/
def natToChars (n : Nat) : List Char :=
  if n = 0 then ['0'] else natToCharsAux (n + 1) n

/-- Decimal representation of an integer, as JavaScript number-to-string
prints integral values. -/
def intToChars (n : Int) : List Char :=
  if n < 0 then '-' :: natToChars n.natAbs else natToChars n.toNat

/-- JSON string escaping of one character, following `JSON.stringify`:
quote, backslash and control characters are escaped, everything else is
emitted verbatim. -/
def escapeChar (c : Char) : List Char :=
  if c = '"' then ['\\', '"']
  else if c = '\\' then ['\\', '\\']
  else if c = '\n' then ['\\', 'n']
  else if c = '\t' then ['\\', 't']
  else if c = '\r' then ['\\', 'r']
  else if c = '\x08' then ['\\', 'b']
  else if c = '\x0c' then ['\\', 'f']
  else if c.toNat < 32 then
    ['\\', 'u', '0', '0', Nat.digitChar (c.toNat / 16), Nat.digitChar (c.toNat % 16)]
  else [c]

/-- Escape every character of a JSON string body. -/
def escapeList : List Char → List Char
  | [] => []
  | c :: cs => escapeChar c ++ escapeList cs

mutual

/-- `JSON.stringify` (no indentation): character list of the serialized value. -/
def serialize : Json → List Char
  | .null => "null".data
  | .bool true => "true".data
  | .bool false => "false".data
  | .num n => intToChars n
  | .str s => '"' :: (escapeList s.data ++ ['"'])
  | .arr xs => '[' :: (serializeElems xs ++ [']'])
  | .obj ms => '\x7b' :: (serializeMembers ms ++ ['\x7d'])

/-- Comma-separated serialization of array elements. -/
def serializeElems : List Json → List Char
  | [] => []
  | [x] => serialize x
  | x :: y :: ys => serialize x ++ ',' :: serializeElems (y :: ys)

/-- Comma-separated serialization of object members. -/
def serializeMembers : List (String × Json) → List Char
  | [] => []
  | [(k, v)] => '"' :: (escapeList k.data ++ '"' :: ':' :: serialize v)
  | (k, v) :: m :: ms =>
    ('"' :: (escapeList k.data ++ '"' :: ':' :: serialize v)) ++
      ',' :: serializeMembers (m :: ms)

end

/-- `JSON.stringify` as a string-valued function. -/
def stringify (v : Json) : String := String.mk (serialize v)

/-- JSON insignificant whitespace characters. -/
def isWs (c : Char) : Bool :=
  c = ' ' || c = '\n' || c = '\t' || c = '\r'

/-- Skip leading insignificant whitespace. -/
def skipWs : List Char → List Char
  | [] => []
  | c :: t => if isWs c then skipWs t else c :: t

/-- Longest prefix of decimal digit characters, and the remainder. -/
def spanDigits : List Char → List Char × List Char
  | [] => ([], [])
  | c :: t =>
    if c.isDigit then
      let (ds, r) := spanDigits t
      (c :: ds, r)
    else ([], c :: t)

/-- Numeric value of a big-endian list of decimal digit characters. -/
def charsToNat (l : List Char) : Nat :=
  l.foldl (fun a c => 10 * a + (c.toNat - 48)) 0

/-- Value of a hexadecimal digit character, if it is one. -/
def hexVal (c : Char) : Option Nat :=
  if c.isDigit then some (c.toNat - 48)
  else if 'a' ≤ c ∧ c ≤ 'f' then some (c.toNat - 87)
  else if 'A' ≤ c ∧ c ≤ 'F' then some (c.toNat - 55)
  else none

/-- Prepend a decoded character onto a string-body parse result. -/
def mapCons (c : Char) : Option (List Char × List Char) → Option (List Char × List Char)
  | some (s, r) => some (c :: s, r)
  | none => none

/-- Parse a JSON string body (the part after the opening quote), returning
the decoded characters and the remainder after the closing quote.  Follows
the JSON grammar: the escapes are the simple ones plus `\uXXXX`, and raw
control characters are rejected. -/
def parseStringBody : List Char → Option (List Char × List Char)
  | [] => none
  | c :: t =>
    if c = '"' then some ([], t)
    else if c = '\\' then
      match t with
      | [] => none
      | e :: t2 =>
        if e = '"' then mapCons '"' (parseStringBody t2)
        else if e = '\\' then mapCons '\\' (parseStringBody t2)
        else if e = '/' then mapCons '/' (parseStringBody t2)
        else if e = 'n' then mapCons '\n' (parseStringBody t2)
        else if e = 't' then mapCons '\t' (parseStringBody t2)
        else if e = 'r' then mapCons '\r' (parseStringBody t2)
        else if e = 'b' then mapCons '\x08' (parseStringBody t2)
        else if e = 'f' then mapCons '\x0c' (parseStringBody t2)
        else if e = 'u' then
          match t2 with
          | h1 :: h2 :: h3 :: h4 :: t3 =>
            match hexVal h1, hexVal h2, hexVal h3, hexVal h4 with
            | some a, some b, some c2, some d =>
              mapCons (Char.ofNat (((a * 16 + b) * 16 + c2) * 16 + d)) (parseStringBody t3)
            | _, _, _, _ => none
          | _ => none
        else none
    else if c.toNat < 32 then none
    else mapCons c (parseStringBody t)

/-- Parse a JSON natural-number numeral (`0`, or a nonzero digit followed
by digits), returning its value and the remainder. -/
def parseNat : List Char → Option (Nat × List Char)
  | [] => none
  | c :: t =>
    if c = '0' then some (0, t)
    else if c.isDigit then
      let (ds, r) := spanDigits t
      some (charsToNat (c :: ds), r)
    else none

mutual

/-- Parse one JSON value (integer-numeral fragment), fuel-driven.  Mirrors
`JSON.parse`: leading whitespace is skipped, then the value is dispatched
on its first character. -/
def parseValue : Nat → List Char → Option (Json × List Char)
  | 0, _ => none
  | fuel + 1, cs =>
    match skipWs cs with
    | 'n' :: 'u' :: 'l' :: 'l' :: t => some (.null, t)
    | 't' :: 'r' :: 'u' :: 'e' :: t => some (.bool true, t)
    | 'f' :: 'a' :: 'l' :: 's' :: 'e' :: t => some (.bool false, t)
    | '"' :: t =>
      match parseStringBody t with
      | some (s, r) => some (.str (String.mk s), r)
      | none => none
    | '-' :: t =>
      match parseNat t with
      | some (n, r) => some (.num (-(n : Int)), r)
      | none => none
    | '[' :: t =>
      match skipWs t with
      | [] => none
      | c :: r =>
        if c = ']' then some (.arr [], r)
        else
          match parseElems fuel (c :: r) with
          | some (xs, r2) => some (.arr xs, r2)
          | none => none
    | '\x7b' :: t =>
      match skipWs t with
      | [] => none
      | c :: r =>
        if c = '\x7d' then some (.obj [], r)
        else
          match parseMembers fuel (c :: r) with
          | some (ms, r2) => some (.obj ms, r2)
          | none => none
    | cs2 =>
      match parseNat cs2 with
      | some (n, r) => some (.num (n : Int), r)
      | none => none

/-- Parse the elements of a non-empty JSON array, consuming the closing
bracket. -/
def parseElems : Nat → List Char → Option (List Json × List Char)
  | 0, _ => none
  | fuel + 1, cs =>
    match parseValue fuel cs with
    | none => none
    | some (v, r) =>
      match skipWs r with
      | ',' :: r2 =>
        match parseElems fuel r2 with
        | some (vs, r3) => some (v :: vs, r3)
        | none => none
      | ']' :: r2 => some ([v], r2)
      | _ => none

/-- Parse the members of a non-empty JSON object, consuming the closing
brace. -/
def parseMembers : Nat → List Char → Option (List (String × Json) × List Char)
  | 0, _ => none
  | fuel + 1, cs =>
    match skipWs cs with
    | '"' :: t =>
      match parseStringBody t with
      | none => none
      | some (k, r) =>
        match skipWs r with
        | ':' :: r2 =>
          match parseValue fuel r2 with
          | none => none
          | some (v, r3) =>
            match skipWs r3 with
            | ',' :: r4 =>
              match parseMembers fuel r4 with
              | some (ms, r5) => some ((String.mk k, v) :: ms, r5)
              | none => none
            | c :: r4 => if c = '\x7d' then some ([(String.mk k, v)], r4) else none
            | [] => none
        | _ => none
    | _ => none

end

/-- `JSON.parse`: parse a whole string as one JSON value (with enough fuel
for any input of its length); trailing non-whitespace is rejected. -/
def jsonParse (s : String) : Option Json :=
  match parseValue (s.data.length + 1) s.data with
  | some (v, r) => if skipWs r = [] then some v else none
  | none => none

/-- A remainder that cannot extend a numeral: empty, or starting with a
non-digit. -/
def NumDelim : List Char → Prop
  | [] => True
  | c :: _ => c.isDigit = false

/-! ## The relay: shallow embedding of `proxy-server.js` -/

/-- Inbound HTTP request as Express hands it to the handler mounted at
`/api`: `req.method`, `req.originalUrl`, `req.headers` (Node lowercases
inbound header names), and the raw body byte stream (modelled as the
character sequence of the inbound bytes). -/
structure InboundRequest where
  method : String
  originalUrl : String
  headers : List (String × String)
  rawBody : String

/-- The request record the handler passes to `fetch` (lines 38-45): target
url, method, the headers object, and the optional body. -/
structure OutboundRequest where
  url : String
  method : String
  headers : List (String × String)
  body : Option String

/-- Backend response as the handler reads it: `response.status`,
`response.headers.get('content-type')` (null when absent) and the body
text. -/
structure BackendResponse where
  status : Nat
  contentType : Option String
  body : String

/-- Response sent to the client: status, body, and whether it was emitted
through `res.json` (the JSON branch or the error branch) or through
`res.send` (opaque text). -/
structure ClientResponse where
  status : Nat
  body : String
  sentJson : Bool

/-- `const BACKEND_URL = 'http://localhost:8000'`. -/
def BACKEND_URL : String := "http://localhost:8000"

/-- JS property lookup `obj[name]` on the header object (first binding of
the exact key; `none` models `undefined`). -/
def getHeader (hs : List (String × String)) (name : String) : Option String :=
  (hs.find? (fun p => p.1 == name)).map (fun p => p.2)

/-- Destructuring `const ... = req.headers` with the `host` property
removed (line 25): every binding whose exact key is `host` is dropped. -/
def removeHost (hs : List (String × String)) : List (String × String) :=
  hs.filter (fun p => p.1 != "host")

/-- JS object spread update: spread `hs` then add property `k` with value
`v` — overwrite in place if the exact key is present, else append
(lines 40-43). -/
def jsObjSet (hs : List (String × String)) (k v : String) : List (String × String) :=
  if hs.any (fun p => p.1 == k) then
    hs.map (fun p => if p.1 == k then (k, v) else p)
  else hs ++ [(k, v)]

/-- `req.originalUrl.replace(/^\/api/, '')`: the anchored regex deletes
exactly one leading occurrence of `/api`; any other string is returned
unchanged. -/
def stripApi : List Char → List Char
  | '/' :: 'a' :: 'p' :: 'i' :: t => t
  | l => l

/-- `contentType && contentType.includes('application/json')` (lines 29-30
and 47-49): substring containment, with the absent (and hence falsy) case
mapped to `false`. -/
def includesJson : Option String → Bool
  | none => false
  | some ct => ct.data.tails.any (fun t => "application/json".data.isPrefixOf t)

/-- ASCII lowercasing of a header name (kernel-computable). -/
def lowerName (s : String) : String := String.mk (s.data.map Char.toLower)

/-- Number of bindings for a header name under HTTP's case-insensitive
header-name semantics. -/
def countHeader (hs : List (String × String)) (name : String) : Nat :=
  (hs.filter (fun p => lowerName p.1 == name)).length

/-- First value bound to a header name, case-insensitively. -/
def getHeaderCI (hs : List (String × String)) (name : String) : Option String :=
  (hs.find? (fun p => lowerName p.1 == name)).map (fun p => p.2)

/-- Build the `fetch` argument from the inbound request, the parsed body
`req.body` (as `express.json()` left it), and the freshly acquired token:
url rewrite (line 23), header filtering and authorization injection
(lines 25, 40-43), and the body-encoding decision (lines 27-35). -/
def buildOutbound (req : InboundRequest) (reqBodyParsed : Json) (token : String) :
    OutboundRequest :=
  { url := String.mk (BACKEND_URL.data ++ stripApi req.originalUrl.data)
    method := req.method
    headers := jsObjSet (removeHost req.headers) "Authorization" ("Bearer " ++ token)
    body :=
      if req.method ≠ "GET" ∧ req.method ≠ "HEAD" then
        if includesJson (getHeader req.headers "content-type") then
          some (stringify reqBodyParsed)
        else some req.rawBody
      else none }

/-- The superseded proxy variant (`src/unnamed/part_002`, line 33): same
url and header construction, but the body is
`['GET','HEAD'].includes(req.method) ? undefined : JSON.stringify(req.body)`
for every content type. -/
def buildOutboundLegacy (req : InboundRequest) (reqBodyParsed : Json) (token : String) :
    OutboundRequest :=
  { url := String.mk (BACKEND_URL.data ++ stripApi req.originalUrl.data)
    method := req.method
    headers := jsObjSet (removeHost req.headers) "Authorization" ("Bearer " ++ token)
    body :=
      if req.method = "GET" ∨ req.method = "HEAD" then none
      else some (stringify reqBodyParsed) }

/-- The catch branch (lines 54-56): `res.status(500).json(...)` with an
object holding `err.message` under the key `error`. -/
def errorResponse (msg : String) : ClientResponse :=
  { status := 500, body := stringify (.obj [("error", .str msg)]), sentJson := true }

/-- Response translation (lines 46-53): copy `response.status`; if the
backend content type includes `application/json`, re-emit the parsed body
via `res.json(await response.json())` — a parse failure raises and lands in
the catch branch — otherwise pass the text through `res.send`. -/
def translateResponse (r : BackendResponse) : ClientResponse :=
  if includesJson r.contentType then
    match jsonParse r.body with
    | some v => { status := r.status, body := stringify v, sentJson := true }
    | none => errorResponse "invalid json response body"
  else { status := r.status, body := r.body, sentJson := false }

/-- One relay call, from the top of the handler: acquire the token
(`execSync('gcloud auth print-identity-token')`, which may raise), build
and dispatch the outbound request, translate the backend response.  The
first component records the outbound request actually issued (`none` when
the handler never reached `fetch`); `backend` abstracts the network. -/
def relay (req : InboundRequest) (reqBodyParsed : Json)
    (tokenResult : Except String String)
    (backend : OutboundRequest → BackendResponse) :
    Option OutboundRequest × ClientResponse :=
  match tokenResult with
  | .error msg => (none, errorResponse msg)
  | .ok token =>
    let out := buildOutbound req reqBodyParsed token
    (some out, translateResponse (backend out))

/-- `cors(...)` configuration of lines 12-15: a static string origin with
credentials.  Modelled from the `cors` package's behaviour for a string
origin: the middleware sets `Access-Control-Allow-Origin` to the configured
string (never echoing the request origin), adds `Vary: Origin`, and
`credentials: true` adds `Access-Control-Allow-Credentials: true`,
regardless of the request's `Origin` header. -/
def corsConfiguredOrigin : String := "http://localhost:3000"

/-- Response headers the `cors` middleware attaches for a request carrying
the given `Origin` header (ignored for a static string origin). -/
def corsHeaders (_requestOrigin : Option String) : List (String × String) :=
  [("Access-Control-Allow-Origin", corsConfiguredOrigin),
   ("Vary", "Origin"),
   ("Access-Control-Allow-Credentials", "true")]

theorem digitChar_props {d : Nat} (hd : d < 10) :
    (Nat.digitChar d).isDigit = true ∧ (Nat.digitChar d).toNat - 48 = d ∧
      isWs (Nat.digitChar d) = false ∧ Nat.digitChar d ≠ ']' ∧
      (d ≠ 0 → Nat.digitChar d ≠ '0') := by
  interval_cases d <;>
    refine ⟨by decide, by decide, by decide, by decide, fun h => ?_⟩ <;>
    first
    | exact absurd rfl h
    | decide

theorem hexVal_digitChar {d : Nat} (hd : d < 16) : hexVal (Nat.digitChar d) = some d := by
  interval_cases d <;> decide

theorem natToCharsAux_zero (fuel : Nat) : natToCharsAux fuel 0 = [] := by
  cases fuel <;> rfl

theorem natToCharsAux_digits :
    ∀ fuel n, n ≤ fuel → ∀ c ∈ natToCharsAux fuel n, c.isDigit = true := by
  intro fuel
  induction fuel with
  | zero =>
    intro n hn c hc
    interval_cases n
    simp [natToCharsAux] at hc
  | succ fuel ih =>
    intro n hn c hc
    cases n with
    | zero => simp [natToCharsAux] at hc
    | succ m =>
      rw [natToCharsAux] at hc
      rcases List.mem_append.mp hc with h | h
      · exact ih _
          (by have := Nat.div_lt_self (Nat.succ_pos m) (by omega : (1:Nat) < 10); omega) _ h
      · simp only [List.mem_singleton] at h
        subst h
        exact (digitChar_props (Nat.mod_lt _ (by omega))).1

theorem foldl_natToCharsAux :
    ∀ fuel n, n ≤ fuel → ∀ a : Nat,
      List.foldl (fun a c => 10 * a + (c.toNat - 48)) a (natToCharsAux fuel n) =
        a * 10 ^ (natToCharsAux fuel n).length + n := by
  intro fuel
  induction fuel with
  | zero =>
    intro n hn a
    interval_cases n
    simp [natToCharsAux]
  | succ fuel ih =>
    intro n hn a
    cases n with
    | zero => simp [natToCharsAux]
    | succ m =>
      have hdiv : (m + 1) / 10 ≤ fuel := by
        have := Nat.div_lt_self (Nat.succ_pos m) (by omega : (1:Nat) < 10)
        omega
      rw [natToCharsAux, List.foldl_append, ih _ hdiv a]
      simp only [List.foldl, List.length_append, List.length_singleton]
      have hmod : ((Nat.digitChar ((m + 1) % 10)).toNat - 48) = (m + 1) % 10 :=
        (digitChar_props (Nat.mod_lt _ (by omega))).2.1
      rw [hmod, pow_succ]
      have := Nat.div_add_mod (m + 1) 10
      ring_nf
      omega

theorem charsToNat_natToChars (n : Nat) : charsToNat (natToChars n) = n := by
  unfold natToChars charsToNat
  by_cases h : n = 0
  · simp [h]
  · rw [if_neg h, foldl_natToCharsAux (n + 1) n (by omega)]
    simp

theorem natToChars_digits {n : Nat} : ∀ c ∈ natToChars n, c.isDigit = true := by
  intro c hc
  unfold natToChars at hc
  by_cases h : n = 0
  · simp [h] at hc
    simp [hc]
  · rw [if_neg h] at hc
    exact natToCharsAux_digits (n + 1) n (by omega) c hc

theorem natToCharsAux_shape :
    ∀ fuel n, 1 ≤ n → n ≤ fuel →
      ∃ d t, natToCharsAux fuel n = Nat.digitChar d :: t ∧ 1 ≤ d ∧ d < 10 := by
  intro fuel
  induction fuel with
  | zero => intro n h1 h2; omega
  | succ fuel ih =>
    intro n h1 h2
    cases n with
    | zero => omega
    | succ m =>
      rw [natToCharsAux]
      by_cases hq : (m + 1) / 10 = 0
      · rw [hq, natToCharsAux_zero]
        refine ⟨(m + 1) % 10, [], rfl, ?_, Nat.mod_lt _ (by omega)⟩
        omega
      · have hdiv : (m + 1) / 10 ≤ fuel := by
          have := Nat.div_lt_self (Nat.succ_pos m) (by omega : (1:Nat) < 10)
          omega
        obtain ⟨d, t, ht, hd1, hd9⟩ := ih _ (by omega) hdiv
        exact ⟨d, t ++ [Nat.digitChar ((m + 1) % 10)], by rw [ht]; rfl, hd1, hd9⟩

theorem natToChars_shape {n : Nat} (h : n ≠ 0) :
    ∃ d t, natToChars n = Nat.digitChar d :: t ∧ 1 ≤ d ∧ d < 10 := by
  unfold natToChars
  rw [if_neg h]
  exact natToCharsAux_shape (n + 1) n (by omega) (by omega)

theorem spanDigits_append {xs : List Char} :
    ∀ rest, (∀ c ∈ xs, c.isDigit = true) → NumDelim rest →
      spanDigits (xs ++ rest) = (xs, rest) := by
  induction xs with
  | nil =>
    intro rest _ hrest
    cases rest with
    | nil => rfl
    | cons c r => simp only [List.nil_append, spanDigits, hrest, NumDelim] at *; simp [hrest]
  | cons c cs ih =>
    intro rest hxs hrest
    have hc : c.isDigit = true := hxs c (by simp)
    have ih2 := ih rest (fun x hx => hxs x (by simp [hx])) hrest
    simp [List.cons_append, spanDigits, hc, List.append_eq, ih2]

theorem parseNat_natToChars {n : Nat} {rest : List Char} (hrest : NumDelim rest) :
    parseNat (natToChars n ++ rest) = some (n, rest) := by
  by_cases h : n = 0
  · subst h
    cases rest with
    | nil => rfl
    | cons c r => simp [natToChars, parseNat]
  · obtain ⟨d, t, ht, hd1, hd9⟩ := natToChars_shape h
    have hdigits : ∀ c ∈ natToChars n, c.isDigit = true := natToChars_digits
    rw [ht] at hdigits ⊢
    have hdp := digitChar_props hd9
    have htd : ∀ c ∈ t, c.isDigit = true := fun c hc => hdigits c (by simp [hc])
    simp only [List.cons_append, parseNat]
    rw [if_neg (hdp.2.2.2.2 (by omega)), if_pos (hdp.1)]
    rw [spanDigits_append rest htd hrest]
    have : charsToNat (Nat.digitChar d :: t) = n := by
      rw [← ht, charsToNat_natToChars]
    simp [this]

theorem skipWs_cons {c : Char} (h : isWs c = false) (t : List Char) :
    skipWs (c :: t) = c :: t := by
  simp [skipWs, h]


theorem psb_close (t : List Char) : parseStringBody ('"' :: t) = some ([], t) := by
  rw [parseStringBody.eq_def]
  simp only [reduceIte]

theorem psb_esc_q (t : List Char) :
    parseStringBody ('\\' :: '"' :: t) = mapCons '"' (parseStringBody t) := by
  rw [parseStringBody.eq_def]
  simp only [reduceIte, show (('\\':Char) = '"') = False from by decide, if_false]

theorem psb_esc_bs (t : List Char) :
    parseStringBody ('\\' :: '\\' :: t) = mapCons '\\' (parseStringBody t) := by
  rw [parseStringBody.eq_def]
  simp only [reduceIte, show (('\\':Char) = '"') = False from by decide, if_false]

theorem psb_esc_n (t : List Char) :
    parseStringBody ('\\' :: 'n' :: t) = mapCons '\n' (parseStringBody t) := by
  rw [parseStringBody.eq_def]
  simp only [reduceIte, show (('\\':Char) = '"') = False from by decide,
    show (('n':Char) = '"') = False from by decide,
    show (('n':Char) = '\\') = False from by decide,
    show (('n':Char) = '/') = False from by decide, if_false]

theorem psb_esc_t (t : List Char) :
    parseStringBody ('\\' :: 't' :: t) = mapCons '\t' (parseStringBody t) := by
  rw [parseStringBody.eq_def]
  simp only [reduceIte, show (('\\':Char) = '"') = False from by decide,
    show (('t':Char) = '"') = False from by decide,
    show (('t':Char) = '\\') = False from by decide,
    show (('t':Char) = '/') = False from by decide,
    show (('t':Char) = 'n') = False from by decide, if_false]

theorem psb_esc_r (t : List Char) :
    parseStringBody ('\\' :: 'r' :: t) = mapCons '\r' (parseStringBody t) := by
  rw [parseStringBody.eq_def]
  simp only [reduceIte, show (('\\':Char) = '"') = False from by decide,
    show (('r':Char) = '"') = False from by decide,
    show (('r':Char) = '\\') = False from by decide,
    show (('r':Char) = '/') = False from by decide,
    show (('r':Char) = 'n') = False from by decide,
    show (('r':Char) = 't') = False from by decide, if_false]

theorem psb_esc_b (t : List Char) :
    parseStringBody ('\\' :: 'b' :: t) = mapCons '\x08' (parseStringBody t) := by
  rw [parseStringBody.eq_def]
  simp only [reduceIte, show (('\\':Char) = '"') = False from by decide,
    show (('b':Char) = '"') = False from by decide,
    show (('b':Char) = '\\') = False from by decide,
    show (('b':Char) = '/') = False from by decide,
    show (('b':Char) = 'n') = False from by decide,
    show (('b':Char) = 't') = False from by decide,
    show (('b':Char) = 'r') = False from by decide, if_false]

theorem psb_esc_f (t : List Char) :
    parseStringBody ('\\' :: 'f' :: t) = mapCons '\x0c' (parseStringBody t) := by
  rw [parseStringBody.eq_def]
  simp only [reduceIte, show (('\\':Char) = '"') = False from by decide,
    show (('f':Char) = '"') = False from by decide,
    show (('f':Char) = '\\') = False from by decide,
    show (('f':Char) = '/') = False from by decide,
    show (('f':Char) = 'n') = False from by decide,
    show (('f':Char) = 't') = False from by decide,
    show (('f':Char) = 'r') = False from by decide,
    show (('f':Char) = 'b') = False from by decide, if_false]

theorem psb_esc_u (h3c h4c : Char) (a b : Nat) (ha : hexVal h3c = some a)
    (hb : hexVal h4c = some b) (t : List Char) :
    parseStringBody ('\\' :: 'u' :: '0' :: '0' :: h3c :: h4c :: t) =
      mapCons (Char.ofNat (16 * a + b)) (parseStringBody t) := by
  rw [parseStringBody.eq_def]
  simp only [reduceIte, show (('\\':Char) = '"') = False from by decide,
    show (('u':Char) = '"') = False from by decide,
    show (('u':Char) = '\\') = False from by decide,
    show (('u':Char) = '/') = False from by decide,
    show (('u':Char) = 'n') = False from by decide,
    show (('u':Char) = 't') = False from by decide,
    show (('u':Char) = 'r') = False from by decide,
    show (('u':Char) = 'b') = False from by decide,
    show (('u':Char) = 'f') = False from by decide, if_false,
    show hexVal '0' = some 0 from by decide, ha, hb]
  rw [show ((0 * 16 + 0) * 16 + a) * 16 + b = 16 * a + b from by ring]

theorem psb_plain {c : Char} (h1 : ¬ c = '"') (h2 : ¬ c = '\\')
    (h8 : ¬ c.toNat < 32) (t : List Char) :
    parseStringBody (c :: t) = mapCons c (parseStringBody t) := by
  rw [parseStringBody.eq_def]
  simp only [h1, h2, h8, if_false]

theorem parseStringBody_escape :
    ∀ s rest, parseStringBody (escapeList s ++ '"' :: rest) = some (s, rest) := by
  intro s
  induction s with
  | nil =>
    intro rest
    rw [show escapeList [] = [] from rfl, List.nil_append, psb_close]
  | cons c cs ih =>
    intro rest
    rw [escapeList, List.append_assoc]
    by_cases h1 : c = '"'
    · subst h1
      rw [show escapeChar '"' = ['\\', '"'] from rfl]
      simp only [List.cons_append, List.nil_append]
      rw [psb_esc_q, ih]
      rfl
    · by_cases h2 : c = '\\'
      · subst h2
        rw [show escapeChar '\\' = ['\\', '\\'] from rfl]
        simp only [List.cons_append, List.nil_append]
        rw [psb_esc_bs, ih]
        rfl
      · by_cases h3 : c = '\n'
        · subst h3
          rw [show escapeChar '\n' = ['\\', 'n'] from rfl]
          simp only [List.cons_append, List.nil_append]
          rw [psb_esc_n, ih]
          rfl
        · by_cases h4 : c = '\t'
          · subst h4
            rw [show escapeChar '\t' = ['\\', 't'] from rfl]
            simp only [List.cons_append, List.nil_append]
            rw [psb_esc_t, ih]
            rfl
          · by_cases h5 : c = '\r'
            · subst h5
              rw [show escapeChar '\r' = ['\\', 'r'] from rfl]
              simp only [List.cons_append, List.nil_append]
              rw [psb_esc_r, ih]
              rfl
            · by_cases h6 : c = '\x08'
              · subst h6
                rw [show escapeChar '\x08' = ['\\', 'b'] from rfl]
                simp only [List.cons_append, List.nil_append]
                rw [psb_esc_b, ih]
                rfl
              · by_cases h7 : c = '\x0c'
                · subst h7
                  rw [show escapeChar '\x0c' = ['\\', 'f'] from rfl]
                  simp only [List.cons_append, List.nil_append]
                  rw [psb_esc_f, ih]
                  rfl
                · by_cases h8 : c.toNat < 32
                  · rw [escapeChar]
                    simp only [h1, h2, h3, h4, h5, h6, h7, h8, if_false, if_true]
                    simp only [List.cons_append, List.nil_append]
                    rw [psb_esc_u _ _ _ _ (hexVal_digitChar (by omega))
                      (hexVal_digitChar (Nat.mod_lt _ (by omega))), ih]
                    rw [show 16 * (c.toNat / 16) + c.toNat % 16 = c.toNat from by omega]
                    rw [Char.ofNat_toNat]
                    rfl
                  · rw [escapeChar]
                    simp only [h1, h2, h3, h4, h5, h6, h7, h8, if_false, if_true]
                    simp only [List.cons_append, List.nil_append]
                    rw [psb_plain h1 h2 h8, ih]
                    rfl

theorem pv_null (fuel : Nat) (t : List Char) :
    parseValue (fuel + 1) ('n' :: 'u' :: 'l' :: 'l' :: t) = some (.null, t) := by
  rw [parseValue.eq_def]
  simp only [skipWs_cons (by decide : isWs 'n' = false)]

theorem pv_true (fuel : Nat) (t : List Char) :
    parseValue (fuel + 1) ('t' :: 'r' :: 'u' :: 'e' :: t) = some (.bool true, t) := by
  rw [parseValue.eq_def]
  simp only [skipWs_cons (by decide : isWs 't' = false)]

theorem pv_false (fuel : Nat) (t : List Char) :
    parseValue (fuel + 1) ('f' :: 'a' :: 'l' :: 's' :: 'e' :: t) = some (.bool false, t) := by
  rw [parseValue.eq_def]
  simp only [skipWs_cons (by decide : isWs 'f' = false)]

theorem pv_str_of {t s r : List Char} (fuel : Nat)
    (h : parseStringBody t = some (s, r)) :
    parseValue (fuel + 1) ('"' :: t) = some (.str (String.mk s), r) := by
  rw [parseValue.eq_def]
  simp only [skipWs_cons (by decide : isWs '"' = false), h]

theorem pv_neg_of {t : List Char} {n : Nat} {r : List Char} (fuel : Nat)
    (h : parseNat t = some (n, r)) :
    parseValue (fuel + 1) ('-' :: t) = some (.num (-(n : Int)), r) := by
  rw [parseValue.eq_def]
  simp only [skipWs_cons (by decide : isWs '-' = false), h]

theorem pv_digit_of {d : Nat} {t : List Char} {n : Nat} {r : List Char} (fuel : Nat)
    (hd : d < 10) (h : parseNat (Nat.digitChar d :: t) = some (n, r)) :
    parseValue (fuel + 1) (Nat.digitChar d :: t) = some (.num (n : Int), r) := by
  have hws : isWs (Nat.digitChar d) = false := (digitChar_props hd).2.2.1
  have step : parseValue (fuel + 1) (Nat.digitChar d :: t) =
      (match parseNat (Nat.digitChar d :: t) with
       | some (n, r) => some (.num (n : Int), r)
       | none => none) := by
    rw [parseValue.eq_def]
    simp only [skipWs_cons hws]
    interval_cases d <;> rfl
  rw [step, h]

theorem pv_arr_nil (fuel : Nat) (r : List Char) :
    parseValue (fuel + 1) ('[' :: ']' :: r) = some (.arr [], r) := by
  rw [parseValue.eq_def]
  simp only [skipWs_cons (by decide : isWs '[' = false),
    skipWs_cons (by decide : isWs ']' = false), reduceIte]

theorem pv_arr_of {c : Char} {r : List Char} {xs : List Json} {r2 : List Char} (fuel : Nat)
    (hws : isWs c = false) (hne : ¬ c = ']')
    (h : parseElems fuel (c :: r) = some (xs, r2)) :
    parseValue (fuel + 1) ('[' :: c :: r) = some (.arr xs, r2) := by
  rw [parseValue.eq_def]
  simp only [skipWs_cons (by decide : isWs '[' = false), skipWs_cons hws, hne, if_false, h]

theorem pv_obj_nil (fuel : Nat) (r : List Char) :
    parseValue (fuel + 1) ('\x7b' :: '\x7d' :: r) = some (.obj [], r) := by
  rw [parseValue.eq_def]
  simp only [skipWs_cons (by decide : isWs '\x7b' = false),
    skipWs_cons (by decide : isWs '\x7d' = false), reduceIte]

theorem pv_obj_of {t : List Char} {ms : List (String × Json)} {r2 : List Char} (fuel : Nat)
    (h : parseMembers fuel ('"' :: t) = some (ms, r2)) :
    parseValue (fuel + 1) ('\x7b' :: '"' :: t) = some (.obj ms, r2) := by
  rw [parseValue.eq_def]
  simp only [skipWs_cons (by decide : isWs '\x7b' = false),
    skipWs_cons (by decide : isWs '"' = false),
    show (('"':Char) = '\x7d') = False from by decide, if_false, h, reduceIte]

theorem pe_last {cs : List Char} {v : Json} {r2 : List Char} (fuel : Nat)
    (h1 : parseValue fuel cs = some (v, ']' :: r2)) :
    parseElems (fuel + 1) cs = some ([v], r2) := by
  rw [parseElems.eq_def]
  simp only [h1, skipWs_cons (by decide : isWs ']' = false), reduceIte]

theorem pe_cons {cs : List Char} {v : Json} {r2 : List Char} {vs : List Json}
    {r3 : List Char} (fuel : Nat)
    (h1 : parseValue fuel cs = some (v, ',' :: r2))
    (h2 : parseElems fuel r2 = some (vs, r3)) :
    parseElems (fuel + 1) cs = some (v :: vs, r3) := by
  rw [parseElems.eq_def]
  simp only [h1, h2, skipWs_cons (by decide : isWs ',' = false), reduceIte]

theorem pm_last {t k r2 : List Char} {v : Json} {r3 : List Char} (fuel : Nat)
    (h1 : parseStringBody t = some (k, ':' :: r2))
    (h2 : parseValue fuel r2 = some (v, '\x7d' :: r3)) :
    parseMembers (fuel + 1) ('"' :: t) = some ([(String.mk k, v)], r3) := by
  rw [parseMembers.eq_def]
  simp only [skipWs_cons (by decide : isWs '"' = false), h1,
    skipWs_cons (by decide : isWs ':' = false), h2,
    skipWs_cons (by decide : isWs '\x7d' = false), reduceIte]
  rfl

theorem pm_cons {t k r2 : List Char} {v : Json} {r4 : List Char}
    {ms : List (String × Json)} {r5 : List Char} (fuel : Nat)
    (h1 : parseStringBody t = some (k, ':' :: r2))
    (h2 : parseValue fuel r2 = some (v, ',' :: r4))
    (h3 : parseMembers fuel r4 = some (ms, r5)) :
    parseMembers (fuel + 1) ('"' :: t) = some ((String.mk k, v) :: ms, r5) := by
  rw [parseMembers.eq_def]
  simp only [skipWs_cons (by decide : isWs '"' = false), h1,
    skipWs_cons (by decide : isWs ':' = false), h2,
    skipWs_cons (by decide : isWs ',' = false), h3, reduceIte]

theorem serialize_shape (v : Json) :
    ∃ c t, serialize v = c :: t ∧ isWs c = false ∧ ¬ c = ']' := by
  cases v with
  | null => exact ⟨'n', ['u', 'l', 'l'], rfl, by decide, by decide⟩
  | bool b =>
    cases b with
    | false => exact ⟨'f', ['a', 'l', 's', 'e'], rfl, by decide, by decide⟩
    | true => exact ⟨'t', ['r', 'u', 'e'], rfl, by decide, by decide⟩
  | num n =>
    by_cases hn : n < 0
    · exact ⟨'-', natToChars n.natAbs, by simp [serialize, intToChars, hn], by decide, by decide⟩
    · by_cases h0 : n.toNat = 0
      · exact ⟨'0', [], by simp [serialize, intToChars, hn, natToChars, h0], by decide, by decide⟩
      · obtain ⟨d, t, ht, hd1, hd9⟩ := natToChars_shape h0
        exact ⟨Nat.digitChar d, t, by simp [serialize, intToChars, hn, ht],
          (digitChar_props hd9).2.2.1, (digitChar_props hd9).2.2.2.1⟩
  | str s =>
    exact ⟨'"', escapeList s.data ++ ['"'], by simp [serialize], by decide, by decide⟩
  | arr xs =>
    exact ⟨'[', serializeElems xs ++ [']'], by simp [serialize], by decide, by decide⟩
  | obj ms =>
    exact ⟨'\x7b', serializeMembers ms ++ ['\x7d'], by simp [serialize], by decide, by decide⟩

theorem serializeElems_shape (x : Json) (xs : List Json) :
    ∃ c t, serializeElems (x :: xs) = c :: t ∧ isWs c = false ∧ ¬ c = ']' := by
  obtain ⟨c, t, ht, hws, hne⟩ := serialize_shape x
  cases xs with
  | nil => exact ⟨c, t, by simp [serializeElems, ht], hws, hne⟩
  | cons y ys =>
    exact ⟨c, t ++ ',' :: serializeElems (y :: ys), by simp [serializeElems, ht], hws, hne⟩

mutual

/-- Fuel needed by `parseValue` on the serialization of `v`. -/
def needV : Json → Nat
  | .null => 1
  | .bool _ => 1
  | .num _ => 1
  | .str _ => 1
  | .arr xs => needsE xs + 1
  | .obj ms => needsM ms + 1

/-- Fuel needed by `parseElems` on serialized array elements. -/
def needsE : List Json → Nat
  | [] => 0
  | v :: vs => needV v + needsE vs + 1

/-- Fuel needed by `parseMembers` on serialized object members. -/
def needsM : List (String × Json) → Nat
  | [] => 0
  | (_, v) :: ms => needV v + needsM ms + 1

end

theorem needV_pos (v : Json) : 1 ≤ needV v := by
  cases v <;> simp [needV]

mutual

theorem needV_le_len : ∀ v : Json, needV v ≤ (serialize v).length
  | .null => by simp [needV, serialize]
  | .bool b => by cases b <;> simp [needV, serialize]
  | .num n => by
    obtain ⟨c, t, ht, _, _⟩ := serialize_shape (.num n)
    simp [needV, ht]
  | .str s => by simp [needV, serialize]
  | .arr xs => by
    have h := needsE_le_len xs
    simp only [needV, serialize, List.length_cons, List.length_append,
      List.length_singleton]
    omega
  | .obj ms => by
    have h := needsM_le_len ms
    simp only [needV, serialize, List.length_cons, List.length_append,
      List.length_singleton]
    omega

theorem needsE_le_len : ∀ vs : List Json, needsE vs ≤ (serializeElems vs).length + 1
  | [] => by simp [needsE, serializeElems]
  | [x] => by
    have h := needV_le_len x
    simp only [needsE, serializeElems]
    omega
  | x :: y :: ys => by
    have h1 := needV_le_len x
    have h2 := needsE_le_len (y :: ys)
    simp only [needsE, serializeElems, List.length_append, List.length_cons] at h2 ⊢
    omega

theorem needsM_le_len : ∀ ms : List (String × Json),
    needsM ms ≤ (serializeMembers ms).length + 1
  | [] => by simp [needsM, serializeMembers]
  | [(k, v)] => by
    have h := needV_le_len v
    simp only [needsM, serializeMembers, List.length_cons, List.length_append]
    omega
  | (k, v) :: m :: ms => by
    have h1 := needV_le_len v
    have h2 := needsM_le_len (m :: ms)
    simp only [needsM, serializeMembers, List.length_cons, List.length_append] at h2 ⊢
    omega

end

theorem parse_serialize (fuel : Nat) :
    (∀ v rest, needV v ≤ fuel → NumDelim rest →
        parseValue fuel (serialize v ++ rest) = some (v, rest)) ∧
    (∀ x xs rest, needsE (x :: xs) ≤ fuel →
        parseElems fuel (serializeElems (x :: xs) ++ ']' :: rest) = some (x :: xs, rest)) ∧
    (∀ k v ms rest, needsM ((k, v) :: ms) ≤ fuel →
        parseMembers fuel (serializeMembers ((k, v) :: ms) ++ '\x7d' :: rest) =
          some ((k, v) :: ms, rest)) := by
  induction fuel with
  | zero =>
    refine ⟨fun v rest hf _ => ?_, fun x xs rest hf => ?_, fun k v ms rest hf => ?_⟩
    · have := needV_pos v; omega
    · simp only [needsE] at hf; have := needV_pos x; omega
    · simp only [needsM] at hf; have := needV_pos v; omega
  | succ fuel ih =>
    obtain ⟨ihV, ihE, ihM⟩ := ih
    refine ⟨?_, ?_, ?_⟩
    · intro v rest hf hrest
      cases v with
      | null =>
        rw [show serialize .null = ['n', 'u', 'l', 'l'] from rfl]
        simp only [List.cons_append, List.nil_append]
        exact pv_null fuel rest
      | bool b =>
        cases b with
        | true =>
          rw [show serialize (.bool true) = ['t', 'r', 'u', 'e'] from rfl]
          simp only [List.cons_append, List.nil_append]
          exact pv_true fuel rest
        | false =>
          rw [show serialize (.bool false) = ['f', 'a', 'l', 's', 'e'] from rfl]
          simp only [List.cons_append, List.nil_append]
          exact pv_false fuel rest
      | num n =>
        by_cases hn : n < 0
        · have hser : serialize (.num n) = '-' :: natToChars n.natAbs := by
            simp [serialize, intToChars, hn]
          rw [hser]
          simp only [List.cons_append]
          have h2 := pv_neg_of fuel (parseNat_natToChars hrest (n := n.natAbs))
          exact h2.trans (by rw [show -((n.natAbs : Nat) : Int) = n from by omega])
        · have hser : serialize (.num n) = natToChars n.toNat := by
            simp [serialize, intToChars, hn]
          by_cases h0 : n.toNat = 0
          · rw [hser, h0]
            have hp : parseNat (natToChars 0 ++ rest) = some (0, rest) :=
              parseNat_natToChars hrest
            have h2 := pv_digit_of (d := 0) fuel (by omega)
              (by simpa [natToChars] using hp)
            refine Eq.trans (by simpa [natToChars] using h2) ?_
            rw [show (0 : Int) = n from by omega]
          · obtain ⟨d, t, ht, hd1, hd9⟩ := natToChars_shape h0
            have hp : parseNat (natToChars n.toNat ++ rest) = some (n.toNat, rest) :=
              parseNat_natToChars hrest
            rw [hser, ht]
            rw [ht] at hp
            simp only [List.cons_append] at hp ⊢
            have h2 := pv_digit_of fuel hd9 hp
            exact h2.trans (by rw [show ((n.toNat : Nat) : Int) = n from by omega])
      | str s =>
        have hser : serialize (.str s) = '"' :: (escapeList s.data ++ ['"']) := by
          simp [serialize]
        rw [hser]
        simp only [List.cons_append, List.append_assoc, List.singleton_append]
        exact pv_str_of fuel (parseStringBody_escape s.data rest)
      | arr xs =>
        cases xs with
        | nil =>
          rw [show serialize (.arr []) = ['[', ']'] from by simp [serialize, serializeElems]]
          simp only [List.cons_append, List.nil_append]
          exact pv_arr_nil fuel rest
        | cons x xs2 =>
          have hser : serialize (.arr (x :: xs2)) =
              '[' :: (serializeElems (x :: xs2) ++ [']']) := by simp [serialize]
          obtain ⟨c, t, ht, hws, hne⟩ := serializeElems_shape x xs2
          have hfE : needsE (x :: xs2) ≤ fuel := by
            simp only [needV] at hf; omega
          have hE := ihE x xs2 rest hfE
          rw [hser]
          simp only [List.append_assoc, List.singleton_append, List.cons_append]
          rw [ht] at hE ⊢
          simp only [List.cons_append] at hE ⊢
          exact pv_arr_of fuel hws hne hE
      | obj ms =>
        cases ms with
        | nil =>
          rw [show serialize (.obj []) = ['\x7b', '\x7d'] from by
            simp [serialize, serializeMembers]]
          simp only [List.cons_append, List.nil_append]
          exact pv_obj_nil fuel rest
        | cons kv ms2 =>
          obtain ⟨k, v⟩ := kv
          have hm : ∃ mt, serializeMembers ((k, v) :: ms2) = '"' :: mt := by
            cases ms2 with
            | nil => exact ⟨escapeList k.data ++ '"' :: ':' :: serialize v, by
                simp [serializeMembers]⟩
            | cons m ms3 => exact ⟨(escapeList k.data ++ '"' :: ':' :: serialize v) ++
                ',' :: serializeMembers (m :: ms3), by simp [serializeMembers]⟩
          obtain ⟨mt, hmt⟩ := hm
          have hfM : needsM ((k, v) :: ms2) ≤ fuel := by
            simp only [needV] at hf; omega
          have hM := ihM k v ms2 rest hfM
          have hser : serialize (.obj ((k, v) :: ms2)) =
              '\x7b' :: (serializeMembers ((k, v) :: ms2) ++ ['\x7d']) := by simp [serialize]
          rw [hser, hmt]
          rw [hmt] at hM
          simp only [List.append_assoc, List.singleton_append, List.cons_append] at hM ⊢
          exact pv_obj_of fuel hM
    · intro x xs rest hf
      cases xs with
      | nil =>
        have hfV : needV x ≤ fuel := by simp only [needsE] at hf; omega
        have hV := ihV x (']' :: rest) hfV (by exact (by decide : (']').isDigit = false))
        rw [show serializeElems [x] = serialize x from by simp [serializeElems]]
        exact pe_last fuel hV
      | cons y ys =>
        have hpx := needV_pos x
        have hpy := needV_pos y
        have hfV : needV x ≤ fuel := by simp only [needsE] at hf; omega
        have hfE : needsE (y :: ys) ≤ fuel := by simp only [needsE] at hf ⊢; omega
        have hV := ihV x (',' :: (serializeElems (y :: ys) ++ ']' :: rest)) hfV
          (by exact (by decide : (',').isDigit = false))
        have hE2 := ihE y ys rest hfE
        rw [show serializeElems (x :: y :: ys) =
          serialize x ++ ',' :: serializeElems (y :: ys) from by simp [serializeElems]]
        simp only [List.append_assoc, List.cons_append]
        exact pe_cons fuel hV hE2
    · intro k v ms rest hf
      cases ms with
      | nil =>
        have hfV : needV v ≤ fuel := by simp only [needsM] at hf; omega
        have hs := parseStringBody_escape k.data (':' :: (serialize v ++ '\x7d' :: rest))
        have hV := ihV v ('\x7d' :: rest) hfV
          (by exact (by decide : ('\x7d').isDigit = false))
        rw [show serializeMembers [(k, v)] =
          '"' :: (escapeList k.data ++ '"' :: ':' :: serialize v) from by
            simp [serializeMembers]]
        simp only [List.append_assoc, List.cons_append]
        exact pm_last fuel hs hV
      | cons m ms2 =>
        obtain ⟨k2, v2⟩ := m
        have hpv := needV_pos v
        have hpv2 := needV_pos v2
        have hfV : needV v ≤ fuel := by simp only [needsM] at hf; omega
        have hfM : needsM ((k2, v2) :: ms2) ≤ fuel := by
          simp only [needsM] at hf ⊢; omega
        have hs := parseStringBody_escape k.data
          (':' :: (serialize v ++ ',' :: (serializeMembers ((k2, v2) :: ms2) ++
            '\x7d' :: rest)))
        have hV := ihV v (',' :: (serializeMembers ((k2, v2) :: ms2) ++ '\x7d' :: rest))
          hfV (by exact (by decide : (',').isDigit = false))
        have hM2 := ihM k2 v2 ms2 rest hfM
        rw [show serializeMembers ((k, v) :: (k2, v2) :: ms2) =
          ('"' :: (escapeList k.data ++ '"' :: ':' :: serialize v)) ++
            ',' :: serializeMembers ((k2, v2) :: ms2) from by simp [serializeMembers]]
        simp only [List.append_assoc, List.cons_append]
        exact pm_cons fuel hs hV hM2

/-- Round trip: the model of `JSON.parse` recovers any value emitted by the
model of `JSON.stringify`. -/
theorem jsonParse_stringify (v : Json) : jsonParse (stringify v) = some v := by
  have h := (parse_serialize ((serialize v).length + 1)).1 v []
    (le_trans (needV_le_len v) (by omega)) trivial
  rw [List.append_nil] at h
  unfold jsonParse stringify
  simp only [show (String.mk (serialize v)).data = serialize v from rfl, h]
  rfl

theorem jsObjSet_append {hs : List (String × String)} {k : String} (v : String)
    (h : hs.any (fun p => p.1 == k) = false) : jsObjSet hs k v = hs ++ [(k, v)] := by
  simp only [jsObjSet, h, Bool.false_eq_true, if_false]

theorem removeHost_no_exact_auth {hs : List (String × String)}
    (hnode : ∀ p ∈ hs, lowerName p.1 = p.1) :
    (removeHost hs).any (fun p => p.1 == "Authorization") = false := by
  rw [List.any_eq_false]
  intro p hp
  have hmem : p ∈ hs := (List.mem_filter.mp hp).1
  have hlow := hnode p hmem
  simp only [beq_iff_eq]
  intro heq
  rw [heq] at hlow
  exact absurd hlow (by decide)

theorem countHeader_append (hs1 hs2 : List (String × String)) (name : String) :
    countHeader (hs1 ++ hs2) name = countHeader hs1 name + countHeader hs2 name := by
  simp [countHeader, List.filter_append]

theorem countHeader_removeHost_host {hs : List (String × String)}
    (hnode : ∀ p ∈ hs, lowerName p.1 = p.1) :
    countHeader (removeHost hs) "host" = 0 := by
  unfold countHeader removeHost
  rw [List.filter_filter]
  rw [List.filter_eq_nil_iff.mpr ?_]
  · rfl
  · intro p hp
    have hlow := hnode p hp
    simp only [Bool.and_eq_true, beq_iff_eq, bne_iff_ne, not_and]
    intro htl
    rw [hlow] at htl
    simp [htl]

theorem countHeader_removeHost_le (hs : List (String × String)) (name : String) :
    countHeader (removeHost hs) name ≤ countHeader hs name := by
  unfold countHeader removeHost
  exact List.Sublist.length_le ((List.filter_sublist hs).filter _)

theorem getHeaderCI_skip_left {hs1 hs2 : List (String × String)} {name : String}
    (h : countHeader hs1 name = 0) :
    getHeaderCI (hs1 ++ hs2) name = getHeaderCI hs2 name := by
  unfold getHeaderCI
  rw [List.find?_append]
  have hnil : hs1.filter (fun p => lowerName p.1 == name) = [] :=
    List.eq_nil_of_length_eq_zero h
  have hnone : hs1.find? (fun p => lowerName p.1 == name) = none :=
    List.find?_eq_none.mpr (List.filter_eq_nil_iff.mp hnil)
  rw [hnone, Option.none_or]

theorem stripApi_eq (l : List Char) :
    stripApi l = if "/api".data.isPrefixOf l then l.drop 4 else l := by
  rw [stripApi.eq_def]
  split
  · next t =>
    simp [List.isPrefixOf]
  · next h =>
    by_cases hp : "/api".data.isPrefixOf l
    · exfalso
      obtain ⟨t, ht⟩ := List.isPrefixOf_iff_prefix.mp hp
      exact h t (by rw [← ht]; rfl)
    · simp [hp]

theorem find?_filter_of_imp (hs : List (String × String))
    (q r : String × String → Bool) (himp : ∀ p, q p = true → r p = true) :
    (hs.filter r).find? q = hs.find? q := by
  induction hs with
  | nil => rfl
  | cons p ps ih =>
    by_cases hq : q p = true
    · rw [List.filter_cons, if_pos (himp p hq), List.find?_cons_of_pos _ hq,
        List.find?_cons_of_pos _ hq]
    · by_cases hr : r p = true
      · rw [List.filter_cons, if_pos hr, List.find?_cons_of_neg _ hq,
          List.find?_cons_of_neg _ hq, ih]
      · rw [List.filter_cons, if_neg hr, List.find?_cons_of_neg _ hq, ih]

/-! ## The claims -/

/-- C1: for every inbound request whose method is not GET or HEAD and whose
content type does not include `application/json` (multipart, binary,
absent, ...), the body handed to `fetch` is exactly the raw inbound byte
stream — no JSON re-encoding is applied. -/
theorem nonjson_body_byte_exact (req : InboundRequest) (b : Json) (token : String)
    (hG : req.method ≠ "GET") (hH : req.method ≠ "HEAD")
    (hct : includesJson (getHeader req.headers "content-type") = false) :
    (buildOutbound req b token).body = some req.rawBody := by
  simp only [buildOutbound]
  rw [if_pos ⟨hG, hH⟩, if_neg (by simp [hct])]

/-- C1 witness: a concrete multipart POST is forwarded byte-exact. -/
theorem nonjson_body_byte_exact_witness :
    (buildOutbound
      { method := "POST", originalUrl := "/api/upload",
        headers := [("host", "localhost:4000"),
                    ("content-type", "multipart/form-data; boundary=X"),
                    ("content-length", "52")],
        rawBody := "--X\r\nbinary \x01 bytes\r\n--X--" }
      (.obj []) "tok").body =
      some "--X\r\nbinary \x01 bytes\r\n--X--" :=
  nonjson_body_byte_exact _ _ _ (by decide) (by decide) (by decide)

/-- C3: GET and HEAD requests never carry an outbound body, whatever the
inbound body or content type — in the current handler and in the
superseded variant alike. -/
theorem get_head_no_body (req : InboundRequest) (b : Json) (token : String)
    (h : req.method = "GET" ∨ req.method = "HEAD") :
    (buildOutbound req b token).body = none ∧
    (buildOutboundLegacy req b token).body = none := by
  constructor
  · simp only [buildOutbound]
    rw [if_neg (by tauto)]
  · simp only [buildOutboundLegacy]
    rw [if_pos h]

/-- C3 witness: a GET with a multipart body still yields no outbound body. -/
theorem get_head_no_body_witness :
    (buildOutbound
      { method := "GET", originalUrl := "/api/x",
        headers := [("content-type", "multipart/form-data")],
        rawBody := "ignored bytes" } (.obj []) "tok").body = none ∧
    (buildOutboundLegacy
      { method := "GET", originalUrl := "/api/x",
        headers := [("content-type", "multipart/form-data")],
        rawBody := "ignored bytes" } (.obj []) "tok").body = none :=
  get_head_no_body _ _ _ (Or.inl rfl)

/-- C4: when token acquisition raises, the relay issues no outbound request
(whatever the backend would have answered) and responds 500 with a JSON
object carrying the message under the `error` key. -/
theorem credential_failure_short_circuit (req : InboundRequest) (b : Json)
    (msg : String) (backend : OutboundRequest → BackendResponse) :
    relay req b (.error msg) backend = (none, errorResponse msg) ∧
    (errorResponse msg).status = 500 ∧
    jsonParse (errorResponse msg).body = some (.obj [("error", .str msg)]) :=
  ⟨rfl, rfl, jsonParse_stringify _⟩

/-- C5: JSON round trip — for a non-GET/HEAD request whose content type
includes `application/json` and whose raw body is well-formed JSON parsing
to `b` (the value `express.json()` left in `req.body`), the outbound body
is the re-serialization of `b` and parses back to exactly `b`. -/
theorem json_body_roundtrip (req : InboundRequest) (b : Json) (token : String)
    (hG : req.method ≠ "GET") (hH : req.method ≠ "HEAD")
    (hct : includesJson (getHeader req.headers "content-type") = true)
    (_hb : jsonParse req.rawBody = some b) :
    (buildOutbound req b token).body = some (stringify b) ∧
    jsonParse (stringify b) = some b := by
  refine ⟨?_, jsonParse_stringify b⟩
  simp only [buildOutbound]
  rw [if_pos ⟨hG, hH⟩, if_pos hct]

/-- C5 witness: a concrete JSON POST round-trips. -/
theorem json_body_roundtrip_witness :
    (buildOutbound
      { method := "POST", originalUrl := "/api/items",
        headers := [("content-type", "application/json")],
        rawBody := "\x7b\"a\": [1, -2, null]\x7d" }
      (.obj [("a", .arr [.num 1, .num (-2), .null])]) "tok").body =
      some (stringify (.obj [("a", .arr [.num 1, .num (-2), .null])])) ∧
    jsonParse (stringify (.obj [("a", .arr [.num 1, .num (-2), .null])])) =
      some (.obj [("a", .arr [.num 1, .num (-2), .null])]) :=
  json_body_roundtrip _ _ _ (by decide) (by decide) (by decide) (by rfl)

/-- C7: path rewrite — the outbound url is the backend base followed by the
inbound path with exactly one leading `/api` occurrence removed; a path not
starting with `/api` is passed through unchanged (and the translation is a
total function, so it cannot crash). -/
theorem path_rewrite (req : InboundRequest) (b : Json) (token : String) :
    (buildOutbound req b token).url.data =
      BACKEND_URL.data ++
        (if "/api".data.isPrefixOf req.originalUrl.data then req.originalUrl.data.drop 4
         else req.originalUrl.data) := by
  simp only [buildOutbound]
  rw [stripApi_eq]

/-- C8: the CORS layer always answers with the single configured origin —
never echoing a foreign origin such as `http://evil.example` — allows
credentials, and names the configured origin for requests from it. -/
theorem cors_single_origin :
    (∀ o : Option String,
      getHeader (corsHeaders o) "Access-Control-Allow-Origin" =
          some corsConfiguredOrigin ∧
        getHeader (corsHeaders o) "Access-Control-Allow-Credentials" = some "true") ∧
    ¬ getHeader (corsHeaders (some "http://evil.example"))
        "Access-Control-Allow-Origin" = some "http://evil.example" ∧
    getHeader (corsHeaders (some "http://localhost:3000"))
        "Access-Control-Allow-Origin" = some "http://localhost:3000" :=
  ⟨fun _ => ⟨rfl, rfl⟩, by decide, rfl⟩

/-- C10: a backend response with an absent content type takes the
opaque-text branch: status and body pass through unchanged via `res.send`,
and no JSON parsing of the body is attempted. -/
theorem absent_content_type_opaque (r : BackendResponse) (h : r.contentType = none) :
    translateResponse r = { status := r.status, body := r.body, sentJson := false } := by
  unfold translateResponse
  rw [h]
  rfl

/-- C10 witness. -/
theorem absent_content_type_opaque_witness :
    translateResponse { status := 204, contentType := none, body := "raw \x01 text" } =
      { status := 204, body := "raw \x01 text", sentJson := false } :=
  absent_content_type_opaque _ rfl

/-- C2 counterexample: an inbound request that itself carries an
authorization header produces an outbound header set with TWO
case-insensitive authorization bindings (the forwarded inbound one plus the
added `Authorization`), refuting "exactly one authorization header". -/
theorem auth_header_counterexample :
    countHeader
      (buildOutbound
        { method := "POST", originalUrl := "/api/x",
          headers := [("authorization", "Bearer stale")],
          rawBody := "" }
        (.obj []) "fresh").headers "authorization" = 2 := by decide

/-- C2 (amended): the outbound header set never contains a host header, and
— provided the inbound request carries no authorization header of its own —
contains exactly one authorization header, valued `Bearer <token>` with the
token acquired for this very call.  (When the inbound request does carry
one, the inbound value is forwarded alongside the fresh one.) -/
theorem auth_header_and_host (req : InboundRequest) (b : Json) (token : String)
    (hnode : ∀ p ∈ req.headers, lowerName p.1 = p.1)
    (hnoauth : countHeader req.headers "authorization" = 0) :
    countHeader (buildOutbound req b token).headers "host" = 0 ∧
    countHeader (buildOutbound req b token).headers "authorization" = 1 ∧
    getHeaderCI (buildOutbound req b token).headers "authorization" =
      some ("Bearer " ++ token) := by
  have hset : (buildOutbound req b token).headers =
      removeHost req.headers ++ [("Authorization", "Bearer " ++ token)] := by
    simp only [buildOutbound]
    exact jsObjSet_append _ (removeHost_no_exact_auth hnode)
  have hle := countHeader_removeHost_le req.headers "authorization"
  have hzero : countHeader (removeHost req.headers) "authorization" = 0 := by omega
  refine ⟨?_, ?_, ?_⟩
  · rw [hset, countHeader_append, countHeader_removeHost_host hnode]
    rfl
  · rw [hset, countHeader_append, hzero]
    rfl
  · rw [hset, getHeaderCI_skip_left hzero]
    rfl

/-- C2 witness: request with no inbound authorization header. -/
theorem auth_header_and_host_witness :
    countHeader (buildOutbound
      { method := "POST", originalUrl := "/api/x",
        headers := [("host", "localhost:4000"), ("content-type", "application/json"),
                    ("accept", "*/*")],
        rawBody := "\x7b\x7d" } (.obj []) "tok7").headers "host" = 0 ∧
    countHeader (buildOutbound
      { method := "POST", originalUrl := "/api/x",
        headers := [("host", "localhost:4000"), ("content-type", "application/json"),
                    ("accept", "*/*")],
        rawBody := "\x7b\x7d" } (.obj []) "tok7").headers "authorization" = 1 ∧
    getHeaderCI (buildOutbound
      { method := "POST", originalUrl := "/api/x",
        headers := [("host", "localhost:4000"), ("content-type", "application/json"),
                    ("accept", "*/*")],
        rawBody := "\x7b\x7d" } (.obj []) "tok7").headers "authorization" =
      some ("Bearer " ++ "tok7") :=
  auth_header_and_host _ _ _ (by decide) (by decide)

/-- C6 counterexample: a backend 200 whose content type indicates JSON but
whose body is not parseable JSON reaches the client as a relay-generated
500, so the status is not carried verbatim for every backend response. -/
theorem response_passthrough_counterexample :
    ¬ (translateResponse
        { status := 200, contentType := some "application/json",
          body := "nope" }).status = 200 := by decide

/-- C6 (amended): provided that a JSON-typed backend body is well-formed
JSON, the client response carries the backend status verbatim; a JSON body
is re-emitted with its semantics unchanged (it parses back to the same
value), and a non-JSON body is passed through byte-for-byte. -/
theorem response_passthrough (r : BackendResponse)
    (h : includesJson r.contentType = true → (jsonParse r.body).isSome = true) :
    (translateResponse r).status = r.status ∧
    (∀ v, jsonParse r.body = some v →
      jsonParse (translateResponse r).body = some v) ∧
    (includesJson r.contentType = false → (translateResponse r).body = r.body) := by
  by_cases hct : includesJson r.contentType = true
  · obtain ⟨v, hv⟩ := Option.isSome_iff_exists.mp (h hct)
    unfold translateResponse
    rw [if_pos hct, hv]
    refine ⟨rfl, ?_, ?_⟩
    · intro w hw
      injection hw with hvw
      show jsonParse (stringify v) = some w
      rw [← hvw]
      exact jsonParse_stringify v
    · intro hf
      rw [hf] at hct
      exact absurd hct (by simp)
  · unfold translateResponse
    rw [if_neg hct]
    exact ⟨rfl, fun v hv => hv, fun _ => rfl⟩

/-- C6 witness: the backend's 404 with body of key `detail` passes through
with status 404 and semantically identical JSON. -/
theorem response_passthrough_witness :
    (translateResponse
      { status := 404, contentType := some "application/json",
        body := "\x7b\"detail\": \"not found\"\x7d" }).status = 404 ∧
    jsonParse (translateResponse
      { status := 404, contentType := some "application/json",
        body := "\x7b\"detail\": \"not found\"\x7d" }).body =
      some (.obj [("detail", .str "not found")]) := by
  have h := response_passthrough
    { status := 404, contentType := some "application/json",
      body := "\x7b\"detail\": \"not found\"\x7d" } (fun _ => by rfl)
  exact ⟨h.1, h.2.1 _ (by rfl)⟩

/-- C9: when a JSON body is re-serialized, every inbound header except host
— content-length included — is still copied unchanged onto the fetch
headers argument, so the forwarded content-length is the inbound value,
which need not equal the length of the re-serialized outbound body. -/
theorem content_length_frame (req : InboundRequest) (b : Json) (token : String)
    (hnode : ∀ p ∈ req.headers, lowerName p.1 = p.1)
    (hG : req.method ≠ "GET") (hH : req.method ≠ "HEAD")
    (hct : includesJson (getHeader req.headers "content-type") = true) :
    getHeader (buildOutbound req b token).headers "content-length" =
      getHeader req.headers "content-length" ∧
    (buildOutbound req b token).body = some (stringify b) := by
  have hset : (buildOutbound req b token).headers =
      removeHost req.headers ++ [("Authorization", "Bearer " ++ token)] := by
    simp only [buildOutbound]
    exact jsObjSet_append _ (removeHost_no_exact_auth hnode)
  constructor
  · rw [hset]
    unfold getHeader removeHost
    rw [List.find?_append,
      find?_filter_of_imp _ _ _ (fun p hq => by
        have : p.1 = "content-length" := by simpa using hq
        simp [this]),
      show List.find? (fun p => p.1 == "content-length")
        [("Authorization", "Bearer " ++ token)] = none from rfl]
    rw [Option.or_none]
  · simp only [buildOutbound]
    rw [if_pos ⟨hG, hH⟩, if_pos hct]

/-- C9 witness: inbound content-length 999 is forwarded while the
re-serialized body has length 2. -/
theorem content_length_frame_witness :
    getHeader (buildOutbound
      { method := "POST", originalUrl := "/api/x",
        headers := [("content-type", "application/json"),
                    ("content-length", "999"), ("host", "localhost:4000")],
        rawBody := "\x7b\x7d" } (.obj []) "tok").headers "content-length" =
      some "999" ∧
    (buildOutbound
      { method := "POST", originalUrl := "/api/x",
        headers := [("content-type", "application/json"),
                    ("content-length", "999"), ("host", "localhost:4000")],
        rawBody := "\x7b\x7d" } (.obj []) "tok").body = some (stringify (.obj [])) ∧
    ¬ (stringify (.obj [])).length = 999 := by
  have h := content_length_frame
    { method := "POST", originalUrl := "/api/x",
      headers := [("content-type", "application/json"),
                  ("content-length", "999"), ("host", "localhost:4000")],
      rawBody := "\x7b\x7d" } (.obj []) "tok"
    (by decide) (by decide) (by decide) (by decide)
  exact ⟨h.1.trans (by rfl), h.2, by decide⟩
